import Mathlib

/-!
Verification of the CalendarGenerator core logic.

Shallow embedding of the calendar-grid / event-store logic of the
CalendarGenerator component (`src/unnamed/part_000`).  Dates are modelled as
`CDate` records (year, JavaScript-style 0-based month index, 1-based day of
month); the date-fns helpers the component calls (`startOfMonth`,
`endOfMonth`, `eachDayOfInterval`, `addMonths`, `subMonths`, `format` with
pattern `yyyy-MM-dd`, `Date.prototype.getDay`) are embedded with their
documented proleptic-Gregorian semantics.  Stateful handlers become pure
functions on an explicit `CalState`, with the host-supplied values
(`crypto.randomUUID()`, the current date) passed as parameters.
-/

/-- A calendar date as the component manipulates it: `year` is the full year,
`month` is the JavaScript 0-based month index (0 = January … 11 = December),
`day` is the 1-based day of month.  Time-of-day components are irrelevant to
every operation modelled here and are omitted. -/
structure CDate where
  year : Nat
  month : Nat
  day : Nat
deriving DecidableEq, Repr

/-- Gregorian leap-year rule (as implemented by the host `Date`). -/
def isLeapYear (y : Nat) : Bool :=
  (y % 4 == 0 && y % 100 != 0) || y % 400 == 0

/-- Number of days of month index `m` (0-based) in year `y`. -/
def daysInMonth (y m : Nat) : Nat :=
  match m with
  | 0 => 31
  | 1 => if isLeapYear y then 29 else 28
  | 2 => 31
  | 3 => 30
  | 4 => 31
  | 5 => 30
  | 6 => 31
  | 7 => 31
  | 8 => 30
  | 9 => 31
  | 10 => 30
  | _ => 31

/-- A `CDate` that denotes a real calendar day (year at least 1, month index
in range, day within the month). -/
def ValidDate (d : CDate) : Prop :=
  1 ≤ d.year ∧ d.month < 12 ∧ 1 ≤ d.day ∧ d.day ≤ daysInMonth d.year d.month

instance (d : CDate) : Decidable (ValidDate d) := by
  unfold ValidDate; infer_instance

/-- Days contributed by the months of year `y` strictly before month index `m`. -/
def daysBeforeMonth (y : Nat) : Nat → Nat
  | 0 => 0
  | m + 1 => daysBeforeMonth y m + daysInMonth y m

/-- Proleptic-Gregorian day number: 0001-01-01 has number 0 and successive
calendar days have successive numbers. -/
def dayNumber (d : CDate) : Nat :=
  365 * (d.year - 1) + (d.year - 1) / 4 - (d.year - 1) / 100 + (d.year - 1) / 400
    + daysBeforeMonth d.year d.month + (d.day - 1)

/-- JavaScript `Date.prototype.getDay`: weekday index, 0 = Sunday … 6 = Saturday.
(0001-01-01 proleptic Gregorian is a Monday, hence the `+ 1`.) -/
def getDay (d : CDate) : Nat :=
  (dayNumber d + 1) % 7

/-- date-fns `startOfMonth`: first day of the month containing `d`. -/
def startOfMonth (d : CDate) : CDate :=
  ⟨d.year, d.month, 1⟩

/-- date-fns `endOfMonth`: last day of the month containing `d`. -/
def endOfMonth (d : CDate) : CDate :=
  ⟨d.year, d.month, daysInMonth d.year d.month⟩

/-- Successor calendar day (carries into the next month / year). -/
def nextDay (d : CDate) : CDate :=
  if d.day < daysInMonth d.year d.month then ⟨d.year, d.month, d.day + 1⟩
  else if d.month < 11 then ⟨d.year, d.month + 1, 1⟩
  else ⟨d.year + 1, 0, 1⟩

/-- Fuel-driven enumeration of the days from `cur` up to `stop` inclusive. -/
def eachDayFuel : Nat → CDate → CDate → List CDate
  | 0, _, _ => []
  | fuel + 1, cur, stop =>
      if cur = stop then [cur] else cur :: eachDayFuel fuel (nextDay cur) stop

/-- date-fns `eachDayOfInterval`: every day from `start` to `stop` inclusive,
in ascending order (the component only ever calls it with
`start = startOfMonth d`, `stop = endOfMonth d`). -/
def eachDayOfInterval (start stop : CDate) : List CDate :=
  if dayNumber start ≤ dayNumber stop then
    eachDayFuel (dayNumber stop - dayNumber start + 1) start stop
  else []

/-- The component's `getDaysInMonth`: the days of the month containing the
current reference date (lines 114-118 of the source). -/
def getDaysInMonth (currentDate : CDate) : List CDate :=
  eachDayOfInterval (startOfMonth currentDate) (endOfMonth currentDate)

/-- The component's `getFirstDayOfMonth`: weekday index of the first day of
the current month, 0 = Sunday (lines 121-123 of the source). -/
def getFirstDayOfMonth (currentDate : CDate) : Nat :=
  getDay (startOfMonth currentDate)

/-- date-fns `addMonths`: shift forward by `n` calendar months, clamping the
day of month to the length of the target month. -/
def addMonths (d : CDate) (n : Nat) : CDate :=
  let t := 12 * d.year + d.month + n
  ⟨t / 12, t % 12, min d.day (daysInMonth (t / 12) (t % 12))⟩

/-- date-fns `subMonths`: shift backward by `n` calendar months, clamping the
day of month.  (Nat subtraction truncates below month 0 of year 0, a region no
reachable reference date occupies.) -/
def subMonths (d : CDate) (n : Nat) : CDate :=
  let t := 12 * d.year + d.month - n
  ⟨t / 12, t % 12, min d.day (daysInMonth (t / 12) (t % 12))⟩

/-- The `prevMonth` handler: `setCurrentDate(subMonths(currentDate, 1))`
(lines 84-86 of the source), as a pure function on the reference date. -/
def prevMonth (currentDate : CDate) : CDate :=
  subMonths currentDate 1

/-- The `nextMonth` handler: `setCurrentDate(addMonths(currentDate, 1))`
(lines 89-91 of the source), as a pure function on the reference date. -/
def nextMonth (currentDate : CDate) : CDate :=
  addMonths currentDate 1

/-- Sanity anchors for the weekday numbering: 2000-01-01 was a Saturday (6)
and 2024-02-01 a Thursday (4) under `getDay`'s 0 = Sunday convention. -/
example : getDay ⟨2000, 0, 1⟩ = 6 ∧ getDay ⟨2024, 1, 1⟩ = 4 := by decide

/-! ## Month-range characterisation of `getDaysInMonth` -/

theorem daysInMonth_bounds (y m : Nat) (hm : m < 12) :
    28 ≤ daysInMonth y m ∧ daysInMonth y m ≤ 31 := by
  interval_cases m <;> cases hy : isLeapYear y <;> simp [daysInMonth, hy]

theorem eachDayFuel_sameMonth (y m : Nat) :
    ∀ n a, 1 ≤ n → a + n = daysInMonth y m + 1 →
      eachDayFuel n ⟨y, m, a⟩ ⟨y, m, daysInMonth y m⟩ =
        (List.range' a n).map (fun k => (⟨y, m, k⟩ : CDate)) := by
  intro n
  induction n with
  | zero => omega
  | succ n ih =>
    intro a _ ha
    by_cases hend : n = 0
    · subst hend
      have : a = daysInMonth y m := by omega
      subst this
      simp [eachDayFuel, List.range']
    · have hlt : a < daysInMonth y m := by omega
      have hne : (⟨y, m, a⟩ : CDate) ≠ ⟨y, m, daysInMonth y m⟩ := by
        intro h
        cases h
        omega
      have hnext : nextDay ⟨y, m, a⟩ = ⟨y, m, a + 1⟩ := by
        simp [nextDay, hlt]
      rw [eachDayFuel, if_neg hne, hnext, ih (a + 1) (by omega) (by omega)]
      simp [List.range']

theorem getDaysInMonth_eq_range (d : CDate) (h : ValidDate d) :
    getDaysInMonth d =
      (List.range' 1 (daysInMonth d.year d.month)).map
        (fun k => (⟨d.year, d.month, k⟩ : CDate)) := by
  obtain ⟨-, hm, -, -⟩ := h
  have hL : 28 ≤ daysInMonth d.year d.month := (daysInMonth_bounds d.year d.month hm).1
  have h1 : dayNumber (startOfMonth d) ≤ dayNumber (endOfMonth d) := by
    simp only [dayNumber, startOfMonth, endOfMonth]
    omega
  have hfuel : dayNumber (endOfMonth d) - dayNumber (startOfMonth d) + 1 =
      daysInMonth d.year d.month := by
    simp only [dayNumber, startOfMonth, endOfMonth]
    omega
  rw [getDaysInMonth, eachDayOfInterval, if_pos h1, hfuel]
  exact eachDayFuel_sameMonth d.year d.month (daysInMonth d.year d.month) 1
    (by omega) (by omega)

/-! ## Formatting, events and the component state -/

/-- Two-digit zero padding, as date-fns `format` patterns `MM` / `dd`. -/
def pad2 (n : Nat) : String :=
  if n < 10 then "0" ++ toString n else toString n

/-- Four-digit zero padding, as date-fns `format` pattern `yyyy`. -/
def pad4 (n : Nat) : String :=
  if n < 10 then "000" ++ toString n
  else if n < 100 then "00" ++ toString n
  else if n < 1000 then "0" ++ toString n
  else toString n

/-- date-fns `format(d, "yyyy-MM-dd")` (month index is 0-based, the printed
month number is 1-based). -/
def formatYMD (d : CDate) : String :=
  pad4 d.year ++ "-" ++ pad2 (d.month + 1) ++ "-" ++ pad2 d.day

/-- JavaScript `String.prototype.trim`: strip leading and trailing
whitespace. -/
def trimJS (s : String) : String :=
  ⟨((s.data.dropWhile Char.isWhitespace).reverse.dropWhile Char.isWhitespace).reverse⟩

/-- The `Event` record type of the component (source lines 38-44). -/
structure Event where
  id : String
  date : String
  title : String
  description : String
  color : String
deriving DecidableEq, Repr

/-- The `newEvent` form state, `Omit<Event, "id">` (source lines 50-55). -/
structure EventForm where
  date : String
  title : String
  description : String
  color : String
deriving DecidableEq, Repr

/-- The initial / reset value of the `newEvent` form. -/
def emptyForm : EventForm :=
  ⟨"", "", "", "#4f46e5"⟩

/-- A notification fired through `toast`; `variant = some "destructive"` is
the error styling used to report a validation failure. -/
structure Toast where
  title : String
  description : String
  variant : Option String
deriving DecidableEq, Repr

/-- The component state touched by the handlers under verification: the
reference date, the event store, the selected day, the form contents, the
add-event dialog flag, and the toasts fired so far. -/
structure CalState where
  currentDate : CDate
  events : List Event
  selectedDate : Option CDate
  newEvent : EventForm
  eventDialogOpen : Bool
  toasts : List Toast
deriving DecidableEq, Repr

/-- The component's `getEventsForDate` (source lines 158-161): the stored events whose `date`
string equals `format(date, "yyyy-MM-dd")`, via `Array.prototype.filter`. -/
def getEventsForDate (events : List Event) (date : CDate) : List Event :=
  events.filter (fun event => event.date == formatYMD date)

/-- The `handleAddEvent` handler (source lines 126-155).  The host-generated values are
parameters: `freshId` is the `crypto.randomUUID()` result and `today` the
`new Date()` current date.  An empty-after-trim title aborts with a
destructive toast before any state change; otherwise the new event is
appended with the id and with the date taken from `selectedDate` (falling
back to today), the form is reset, and the dialog closed. -/
def handleAddEvent (freshId : String) (today : CDate) (s : CalState) : CalState :=
  if trimJS s.newEvent.title = "" then
    { s with toasts := s.toasts ++ [⟨"Error", "Event title is required", some "destructive"⟩] }
  else
    let eventToAdd : Event :=
      { id := freshId
        date := match s.selectedDate with
                | some d => formatYMD d
                | none => formatYMD today
        title := s.newEvent.title
        description := s.newEvent.description
        color := s.newEvent.color }
    { s with
        events := s.events ++ [eventToAdd]
        newEvent := emptyForm
        eventDialogOpen := false
        toasts := s.toasts ++
          [⟨"Event added", "Your event has been successfully added to the calendar", none⟩] }

/-! ## Month / year selection (JavaScript `Date` setter semantics) -/

/-- The dropdown month names, `format(new Date(2000, i, 1), "MMMM")` for
`i = 0 … 11` (source lines 65-68). -/
def monthNames : List String :=
  ["January", "February", "March", "April", "May", "June", "July",
   "August", "September", "October", "November", "December"]

/-- JavaScript `Date.prototype.setMonth m` for `0 ≤ m ≤ 11`: the day of
month is kept and the result is normalised, so a day beyond the end of the
target month rolls over into the following month (it is never clamped).
Since every reachable date has `day ≤ 31`, the overflow is at most 3 days
and at most one month boundary is crossed. -/
def jsSetMonth (d : CDate) (m : Nat) : CDate :=
  if d.day ≤ daysInMonth d.year m then ⟨d.year, m, d.day⟩
  else if m < 11 then ⟨d.year, m + 1, d.day - daysInMonth d.year m⟩
  else ⟨d.year + 1, 0, d.day - daysInMonth d.year m⟩

/-- JavaScript `Date.prototype.setFullYear y`: month and day kept and
normalised, so Feb 29 rolls over to Mar 1 in a non-leap target year. -/
def jsSetFullYear (d : CDate) (y : Nat) : CDate :=
  if d.day ≤ daysInMonth y d.month then ⟨y, d.month, d.day⟩
  else if d.month < 11 then ⟨y, d.month + 1, d.day - daysInMonth y d.month⟩
  else ⟨y + 1, 0, d.day - daysInMonth y d.month⟩

/-- Model of `Number.parseInt` on the all-digit decimal strings the year dropdown
supplies (every dropdown value is the decimal rendering of a year). -/
def parseDecimal (s : String) : Nat :=
  s.data.foldl (fun acc c => acc * 10 + (c.toNat - 48)) 0

/-- The `handleYearChange` handler (source lines 99-103): parse the dropdown's decimal
year string and `setFullYear` it on a copy of the reference date. -/
def handleYearChange (year : String) (currentDate : CDate) : CDate :=
  jsSetFullYear currentDate (parseDecimal year)

/-- The `handleMonthChange` handler (source lines 106-111): look the month name up in
the dropdown list and `setMonth` the found index on a copy of the reference
date.  (The dropdown only ever supplies members of `monthNames`, where
`List.findIdx` agrees with `Array.prototype.findIndex`.) -/
def handleMonthChange (month : String) (currentDate : CDate) : CDate :=
  jsSetMonth currentDate (monthNames.findIdx (fun m => m == month))

/-! ## Persistence: `JSON.stringify` / `JSON.parse` of the event array

The persisted value under the `"calendar-events"` key is
`JSON.stringify(events)` (source lines 71-81).  The events the component
stores are built by `handleAddEvent` from the object literal
`{ ...newEvent, id, date }`, so their JSON key order is
`date, title, description, color, id`.  We embed `JSON.stringify` /
`JSON.parse` restricted to strings of *plain* characters (no `"`, no `\`,
no control characters) — exactly the strings `JSON.stringify` emits
verbatim without escape sequences. -/

/-- A character `JSON.stringify` writes into a string literal unescaped. -/
def plainChar (c : Char) : Bool :=
  c != '"' && c != '\\' && 32 ≤ c.toNat

/-- A string serialised verbatim (no escapes) by `JSON.stringify`. -/
def plainString (s : String) : Bool :=
  s.data.all plainChar

/-- An event all of whose fields are plain strings; such events survive the
JSON round trip verbatim. -/
def wellFormedEvent (e : Event) : Bool :=
  plainString e.id && plainString e.date && plainString e.title &&
    plainString e.description && plainString e.color

/-- JSON string literal for a plain string. -/
def quoteJSON (s : String) : List Char :=
  '"' :: s.data ++ ['"']

/-- The `"key":` prefix of a JSON object member. -/
def keyColon (k : String) : List Char :=
  quoteJSON k ++ [':']

/-- Encoding of one stored event, as `JSON.stringify` emits it: an object with members in the
key-insertion order `date, title, description, color, id`. -/
def encodeEvent (e : Event) : List Char :=
  '\x7b' :: (keyColon "date" ++ quoteJSON e.date ++
    ',' :: (keyColon "title" ++ quoteJSON e.title ++
    ',' :: (keyColon "description" ++ quoteJSON e.description ++
    ',' :: (keyColon "color" ++ quoteJSON e.color ++
    ',' :: (keyColon "id" ++ quoteJSON e.id ++ ['\x7d'])))))

/-- Comma-separated encodings of the array elements. -/
def encodeEventsList : List Event → List Char
  | [] => []
  | [e] => encodeEvent e
  | e :: rest => encodeEvent e ++ ',' :: encodeEventsList rest

/-- Full `JSON.stringify(events)` text. -/
def stringifyEvents (events : List Event) : String :=
  ⟨'[' :: (encodeEventsList events ++ [']'])⟩

/-- The save effect, `localStorage.setItem("calendar-events", JSON.stringify(events))`
(source lines 79-81): the storage cell afterwards. -/
def saveEvents (events : List Event) : Option String :=
  some (stringifyEvents events)

/-- Consume an expected literal prefix. -/
def dropLit : List Char → List Char → Option (List Char)
  | [], s => some s
  | _ :: _, [] => none
  | c :: p, x :: s => if x = c then dropLit p s else none

/-- Parse a JSON string literal containing no escapes. -/
def parseQuoted : List Char → Option (String × List Char)
  | '"' :: rest =>
      match rest.dropWhile (fun c => c ≠ '"') with
      | '"' :: r => some (⟨rest.takeWhile (fun c => c ≠ '"')⟩, r)
      | _ => none
  | _ => none

/-- Parse the object member `"k":"value"`. -/
def parseKeyed (k : String) (s : List Char) : Option (String × List Char) :=
  match dropLit (keyColon k) s with
  | none => none
  | some r => parseQuoted r

/-- Parse one serialised event object. -/
def parseEventChars (s : List Char) : Option (Event × List Char) := do
  let s ← dropLit ['\x7b'] s
  let (dt, s) ← parseKeyed "date" s
  let s ← dropLit [','] s
  let (ti, s) ← parseKeyed "title" s
  let s ← dropLit [','] s
  let (de, s) ← parseKeyed "description" s
  let s ← dropLit [','] s
  let (co, s) ← parseKeyed "color" s
  let s ← dropLit [','] s
  let (i, s) ← parseKeyed "id" s
  let s ← dropLit ['\x7d'] s
  pure (⟨i, dt, ti, de, co⟩, s)

/-- Parse the comma-separated elements of a non-empty event array up to and
including the closing `]`; `fuel` bounds the recursion depth. -/
def parseItems : Nat → List Char → Option (List Event)
  | 0, _ => none
  | fuel + 1, s =>
      match parseEventChars s with
      | none => none
      | some (e, r) =>
          match r with
          | ']' :: r' => if r' = [] then some [e] else none
          | ',' :: r' => (parseItems fuel r').map (e :: ·)
          | _ => none

/-- Model of `JSON.parse` on a serialised event array. -/
def parseEvents (s : String) : Option (List Event) :=
  match s.data with
  | '[' :: rest => if rest = [']'] then some [] else parseItems rest.length rest
  | _ => none

/-- The load effect (source lines 71-76):
`localStorage.getItem("calendar-events")` is `none` when no data was ever
persisted, and the component parses the stored string only when it is
non-null and non-empty (JavaScript truthiness); otherwise the event state
keeps its initial `[]` value.  (Behaviour on malformed stored data is
unspecified in the source; the model's `[]` default is unreachable for
strings produced by `saveEvents`.) -/
def loadEvents (storage : Option String) : List Event :=
  match storage with
  | none => []
  | some s => if s = "" then [] else (parseEvents s).getD []

/-! ## Round-trip lemmas for the persistence format -/

theorem dropLit_append (p r : List Char) : dropLit p (p ++ r) = some r := by
  induction p with
  | nil => rfl
  | cons c p ih => simp [dropLit, ih]

theorem takeWhile_append_all (p : Char → Bool) (l r : List Char)
    (h : ∀ c ∈ l, p c = true) :
    (l ++ r).takeWhile p = l ++ r.takeWhile p := by
  induction l with
  | nil => rfl
  | cons c l ih =>
    simp only [List.cons_append, List.takeWhile_cons, h c (by simp),
      ih (fun x hx => h x (by simp [hx])), if_true]

theorem dropWhile_append_all (p : Char → Bool) (l r : List Char)
    (h : ∀ c ∈ l, p c = true) :
    (l ++ r).dropWhile p = r.dropWhile p := by
  induction l with
  | nil => rfl
  | cons c l ih =>
    simp only [List.cons_append, List.dropWhile_cons, h c (by simp),
      ih (fun x hx => h x (by simp [hx])), if_true]

theorem parseQuoted_round (s : String) (r : List Char) (h : plainString s = true) :
    parseQuoted (quoteJSON s ++ r) = some (s, r) := by
  have hq : ∀ c ∈ s.data, (decide (c ≠ '"')) = true := by
    intro c hc
    have hp := List.all_eq_true.mp h c hc
    simp only [plainChar, Bool.and_eq_true, bne_iff_ne] at hp
    simp [hp.1.1]
  have hshape : quoteJSON s ++ r = '"' :: (s.data ++ ('"' :: r)) := by
    simp [quoteJSON]
  rw [hshape, parseQuoted]
  rw [dropWhile_append_all _ _ _ hq, takeWhile_append_all _ _ _ hq]
  simp [List.dropWhile_cons, List.takeWhile_cons]

theorem parseKeyed_round (k s : String) (r : List Char) (h : plainString s = true) :
    parseKeyed k (keyColon k ++ (quoteJSON s ++ r)) = some (s, r) := by
  simp [parseKeyed, dropLit_append, parseQuoted_round s r h]

theorem parseEventChars_round (e : Event) (r : List Char)
    (h : wellFormedEvent e = true) :
    parseEventChars (encodeEvent e ++ r) = some (e, r) := by
  have h' := h
  simp only [wellFormedEvent, Bool.and_eq_true] at h'
  obtain ⟨⟨⟨⟨hid, hdate⟩, hti⟩, hde⟩, hco⟩ := h'
  simp only [encodeEvent, List.cons_append, List.append_assoc, List.singleton_append]
  rw [parseEventChars]
  simp [dropLit, parseKeyed_round, hid, hdate, hti, hde, hco]

theorem parseItems_round :
    ∀ (E : List Event), E ≠ [] → (∀ e ∈ E, wellFormedEvent e = true) →
      ∀ fuel, E.length ≤ fuel →
        parseItems fuel (encodeEventsList E ++ [']']) = some E := by
  intro E
  induction E with
  | nil => simp
  | cons e rest ih =>
    intro _ hwf fuel hfuel
    have hf : ∃ f, fuel = f + 1 := ⟨fuel - 1, by simp at hfuel; omega⟩
    obtain ⟨f, rfl⟩ := hf
    cases rest with
    | nil =>
      simp only [encodeEventsList]
      rw [parseItems, parseEventChars_round e [']'] (hwf e (by simp))]
      simp
    | cons e2 rest2 =>
      have hshape : encodeEventsList (e :: e2 :: rest2) ++ [']'] =
          encodeEvent e ++ (',' :: (encodeEventsList (e2 :: rest2) ++ [']'])) := by
        simp [encodeEventsList]
      rw [hshape, parseItems, parseEventChars_round e _ (hwf e (by simp))]
      show Option.map (fun x => e :: x) (parseItems f (encodeEventsList (e2 :: rest2) ++ [']'])) =
        some (e :: e2 :: rest2)
      rw [ih (by simp) (fun x hx => hwf x (by simp [hx])) f (by simp at hfuel ⊢; omega)]
      rfl

theorem length_le_encodeEventsList :
    ∀ (E : List Event), E.length ≤ (encodeEventsList E).length := by
  intro E
  induction E with
  | nil => simp [encodeEventsList]
  | cons e rest ih =>
    cases rest with
    | nil => simp [encodeEventsList, encodeEvent]
    | cons e2 rest2 =>
      simp only [encodeEventsList, List.length_append, List.length_cons]
      have h1 : 1 ≤ (encodeEvent e).length := by simp [encodeEvent]
      simp only [List.length_cons] at ih
      omega

theorem loadEvents_saveEvents (E : List Event)
    (h : ∀ e ∈ E, wellFormedEvent e = true) :
    loadEvents (saveEvents E) = E := by
  have hne : stringifyEvents E ≠ "" := by
    intro hc
    have hd : ('[' :: (encodeEventsList E ++ [']'])) = ([] : List Char) :=
      congrArg String.data hc
    simp at hd
  simp only [loadEvents, saveEvents]
  rw [if_neg hne]
  cases E with
  | nil => simp [parseEvents, stringifyEvents, encodeEventsList]
  | cons e rest =>
    have hlen := length_le_encodeEventsList (e :: rest)
    have hne2 : encodeEventsList (e :: rest) ++ [']'] ≠ [']'] := by
      intro hc
      have hl := congrArg List.length hc
      simp only [List.length_append, List.length_cons, List.length_nil] at hl
      simp only [List.length_cons] at hlen
      omega
    simp only [parseEvents, stringifyEvents]
    rw [if_neg hne2]
    rw [parseItems_round (e :: rest) (by simp) h _
      (by simp only [List.length_append, List.length_cons, List.length_nil] at hlen ⊢; omega)]
    rfl

/-! ## The claims -/

/-- C1: For every valid reference date `d`, `getDaysInMonth d` is the ordered
ascending sequence of every calendar day from the first to the last day of
the month containing `d`, inclusive; `d` itself appears exactly once in it,
every element belongs to the same month and year as `d`, and its length is
between 28 and 31 per the Gregorian month-length and leap-year rules; in
particular, for reference 2024-02-01 (month index 1) it has 29 entries
ending in 2024-02-29. -/
theorem getDaysInMonth_spec (d : CDate) (h : ValidDate d) :
    (getDaysInMonth d).length = daysInMonth d.year d.month ∧
    28 ≤ (getDaysInMonth d).length ∧ (getDaysInMonth d).length ≤ 31 ∧
    (∀ e, e ∈ getDaysInMonth d ↔
      e.year = d.year ∧ e.month = d.month ∧ 1 ≤ e.day ∧ e.day ≤ daysInMonth d.year d.month) ∧
    (getDaysInMonth d).Pairwise (fun a b => dayNumber a < dayNumber b) ∧
    (getDaysInMonth d).count d = 1 ∧
    (getDaysInMonth ⟨2024, 1, 1⟩).length = 29 ∧
    (getDaysInMonth ⟨2024, 1, 1⟩).getLast? = some ⟨2024, 1, 29⟩ := by
  obtain ⟨hy, hm, hd1, hd2⟩ := h
  have hr := getDaysInMonth_eq_range d ⟨hy, hm, hd1, hd2⟩
  have hmem : ∀ e, e ∈ getDaysInMonth d ↔
      e.year = d.year ∧ e.month = d.month ∧ 1 ≤ e.day ∧
        e.day ≤ daysInMonth d.year d.month := by
    intro e
    rw [hr]
    simp only [List.mem_map, List.mem_range'_1]
    constructor
    · rintro ⟨k, ⟨hk1, hk2⟩, rfl⟩
      refine ⟨rfl, rfl, hk1, ?_⟩
      show k ≤ daysInMonth d.year d.month
      omega
    · rintro ⟨h1, h2, h3, h4⟩
      refine ⟨e.day, ⟨h3, by omega⟩, ?_⟩
      cases e
      simp_all
  have hpw : (getDaysInMonth d).Pairwise (fun a b => dayNumber a < dayNumber b) := by
    rw [hr, List.pairwise_map]
    refine List.Pairwise.imp_of_mem ?_
      (List.pairwise_lt_range' 1 (daysInMonth d.year d.month))
    intro a b ha hb hab
    have ha1 : 1 ≤ a := (List.mem_range'_1.mp ha).1
    simp only [dayNumber]
    omega
  have hnd : (getDaysInMonth d).Nodup := by
    rw [hr]
    refine List.Nodup.map ?_ (List.nodup_range' 1 _)
    intro a b hab
    simpa using hab
  refine ⟨?_, ?_, ?_, hmem, hpw, ?_, by decide, by decide⟩
  · rw [hr]; simp [List.length_range']
  · rw [hr]
    simp only [List.length_map, List.length_range']
    exact (daysInMonth_bounds d.year d.month hm).1
  · rw [hr]
    simp only [List.length_map, List.length_range']
    exact (daysInMonth_bounds d.year d.month hm).2
  · exact List.count_eq_one_of_mem hnd ((hmem d).mpr ⟨rfl, rfl, hd1, hd2⟩)

/-- Witness for C1 at the concrete reference date 2024-02-01. -/
theorem getDaysInMonth_spec_witness :
    (getDaysInMonth ⟨2024, 1, 1⟩).count ⟨2024, 1, 1⟩ = 1 :=
  (getDaysInMonth_spec ⟨2024, 1, 1⟩ (by decide)).2.2.2.2.2.1

/-- C5: For every valid reference date `d`, `getFirstDayOfMonth d` is an
integer in `[0, 6]` and equals the weekday index (0 = Sunday) of the first
element of `getDaysInMonth d`. -/
theorem getFirstDayOfMonth_spec (d : CDate) (h : ValidDate d) :
    getFirstDayOfMonth d ≤ 6 ∧
    (getDaysInMonth d).head? = some (startOfMonth d) ∧
    ∀ x, (getDaysInMonth d).head? = some x → getFirstDayOfMonth d = getDay x := by
  have hb : getFirstDayOfMonth d ≤ 6 := by
    show (dayNumber (startOfMonth d) + 1) % 7 ≤ 6
    omega
  have hh : (getDaysInMonth d).head? = some (startOfMonth d) := by
    rw [getDaysInMonth_eq_range d h]
    have hL : 28 ≤ daysInMonth d.year d.month :=
      (daysInMonth_bounds d.year d.month h.2.1).1
    obtain ⟨L, hL'⟩ : ∃ L, daysInMonth d.year d.month = L + 1 :=
      ⟨daysInMonth d.year d.month - 1, by omega⟩
    rw [hL', List.range'_succ]
    simp [startOfMonth]
  refine ⟨hb, hh, fun x hx => ?_⟩
  rw [hh] at hx
  injection hx with hx
  rw [← hx]
  rfl

/-- Witness for C5 at the concrete reference date 2024-02-01 (whose first
day, 2024-02-01, is a Thursday: weekday index 4). -/
theorem getFirstDayOfMonth_spec_witness :
    (getDaysInMonth ⟨2024, 1, 1⟩).head? = some (startOfMonth ⟨2024, 1, 1⟩) ∧
    getFirstDayOfMonth ⟨2024, 1, 1⟩ = 4 :=
  ⟨(getFirstDayOfMonth_spec ⟨2024, 1, 1⟩ (by decide)).2.1, by decide⟩

/-- C6: For every event list and every date, `getEventsForDate events date`
returns exactly the events whose `date` field is string-equal to
`format(date, "yyyy-MM-dd")` — only such events, all such events — and
preserves their original order (it is a sublist of the source list). -/
theorem getEventsForDate_spec (events : List Event) (date : CDate) :
    (∀ e, e ∈ getEventsForDate events date ↔ e ∈ events ∧ e.date = formatYMD date) ∧
    (getEventsForDate events date).Sublist events := by
  constructor
  · intro e
    simp [getEventsForDate, List.mem_filter]
  · exact List.filter_sublist events

/-- C7: For every valid reference date `d` whose day of month is valid in
the following month, `prevMonth (nextMonth d)` restores `d` (in particular
its month and year); `nextMonth` advances the month index by exactly one
calendar month and `prevMonth` retreats it by exactly one, each keeping the
day of month clamped to the length of the target month. -/
theorem nextMonth_prevMonth_spec (d : CDate) (h : ValidDate d)
    (hb : d.day ≤ daysInMonth (nextMonth d).year (nextMonth d).month) :
    prevMonth (nextMonth d) = d ∧
    12 * (nextMonth d).year + (nextMonth d).month = 12 * d.year + d.month + 1 ∧
    (nextMonth d).day = min d.day (daysInMonth (nextMonth d).year (nextMonth d).month) ∧
    12 * (prevMonth d).year + (prevMonth d).month + 1 = 12 * d.year + d.month ∧
    (prevMonth d).day = min d.day (daysInMonth (prevMonth d).year (prevMonth d).month) := by
  obtain ⟨y, m, day⟩ := d
  obtain ⟨hy, hm, hd1, hd2⟩ := h
  have hy' : 1 ≤ y := hy
  have hm' : m < 12 := hm
  have hd2' : day ≤ daysInMonth y m := hd2
  clear hy hm hd1 hd2
  have hb' : day ≤ daysInMonth ((12 * y + m + 1) / 12) ((12 * y + m + 1) % 12) := hb
  clear hb
  refine ⟨?_, ?_, rfl, ?_, rfl⟩
  · show (⟨(12 * ((12 * y + m + 1) / 12) + (12 * y + m + 1) % 12 - 1) / 12,
      (12 * ((12 * y + m + 1) / 12) + (12 * y + m + 1) % 12 - 1) % 12,
      min (min day (daysInMonth ((12 * y + m + 1) / 12) ((12 * y + m + 1) % 12)))
        (daysInMonth ((12 * ((12 * y + m + 1) / 12) + (12 * y + m + 1) % 12 - 1) / 12)
          ((12 * ((12 * y + m + 1) / 12) + (12 * y + m + 1) % 12 - 1) % 12))⟩ : CDate)
      = ⟨y, m, day⟩
    rw [show 12 * ((12 * y + m + 1) / 12) + (12 * y + m + 1) % 12 - 1 = 12 * y + m from
        by omega,
      show (12 * y + m) / 12 = y from by omega,
      show (12 * y + m) % 12 = m from by omega,
      min_eq_left hb', min_eq_left hd2']
  · show 12 * ((12 * y + m + 1) / 12) + (12 * y + m + 1) % 12 = 12 * y + m + 1
    omega
  · show 12 * ((12 * y + m - 1) / 12) + (12 * y + m - 1) % 12 + 1 = 12 * y + m
    omega

/-- Witness for C7 at the concrete reference date 2024-01-15. -/
theorem nextMonth_prevMonth_spec_witness :
    prevMonth (nextMonth ⟨2024, 0, 15⟩) = ⟨2024, 0, 15⟩ :=
  (nextMonth_prevMonth_spec ⟨2024, 0, 15⟩ (by decide) (by decide)).1

/-- C2: For every state whose form title is empty or whitespace-only after
trimming, `handleAddEvent` fails with the destructive (validation-error)
toast, leaves the event store — and hence the persisted value — completely
unchanged, and leaves the form contents, the dialog-open flag and the
selection untouched, so the event-creation form stays open for correction. -/
theorem handleAddEvent_blankTitle_spec (s : CalState) (freshId : String) (today : CDate)
    (h : trimJS s.newEvent.title = "") :
    (handleAddEvent freshId today s).events = s.events ∧
    saveEvents (handleAddEvent freshId today s).events = saveEvents s.events ∧
    (handleAddEvent freshId today s).newEvent = s.newEvent ∧
    (handleAddEvent freshId today s).eventDialogOpen = s.eventDialogOpen ∧
    (handleAddEvent freshId today s).selectedDate = s.selectedDate ∧
    (handleAddEvent freshId today s).toasts =
      s.toasts ++ [⟨"Error", "Event title is required", some "destructive"⟩] := by
  simp [handleAddEvent, h]

/-- Witness for C2: a whitespace-only title `"  "` on an open dialog. -/
theorem handleAddEvent_blankTitle_spec_witness :
    trimJS "  " = "" ∧
    (handleAddEvent "uuid-1" ⟨2024, 2, 15⟩
      ⟨⟨2024, 2, 1⟩, [], none, ⟨"", "  ", "", "#4f46e5"⟩, true, []⟩).events = [] ∧
    (handleAddEvent "uuid-1" ⟨2024, 2, 15⟩
      ⟨⟨2024, 2, 1⟩, [], none, ⟨"", "  ", "", "#4f46e5"⟩, true, []⟩).eventDialogOpen
      = true :=
  ⟨by decide,
   (handleAddEvent_blankTitle_spec
     ⟨⟨2024, 2, 1⟩, [], none, ⟨"", "  ", "", "#4f46e5"⟩, true, []⟩
     "uuid-1" ⟨2024, 2, 15⟩ (by decide)).1,
   (handleAddEvent_blankTitle_spec
     ⟨⟨2024, 2, 1⟩, [], none, ⟨"", "  ", "", "#4f46e5"⟩, true, []⟩
     "uuid-1" ⟨2024, 2, 15⟩ (by decide)).2.2.2.1⟩

/-- C3: For every event store, adding a valid event with selected day
2024-03-15 and non-empty title `"Meeting"` appends exactly one event (store
size grows by one) carrying the freshly generated id — distinct from every
existing id — and afterwards `getEventsForDate` at 2024-03-15 includes the
new event. -/
theorem handleAddEvent_validAdd_spec (evs : List Event) (cur : CDate)
    (fd de co : String) (dlg : Bool) (ts : List Toast)
    (freshId : String) (today : CDate)
    (hfresh : freshId ∉ evs.map Event.id) :
    ((handleAddEvent freshId today
        ⟨cur, evs, some ⟨2024, 2, 15⟩, ⟨fd, "Meeting", de, co⟩, dlg, ts⟩).events.length
      = evs.length + 1) ∧
    ((handleAddEvent freshId today
        ⟨cur, evs, some ⟨2024, 2, 15⟩, ⟨fd, "Meeting", de, co⟩, dlg, ts⟩).events
      = evs ++ [⟨freshId, "2024-03-15", "Meeting", de, co⟩]) ∧
    freshId ∉ evs.map Event.id ∧
    (⟨freshId, "2024-03-15", "Meeting", de, co⟩ : Event) ∈
      getEventsForDate
        (handleAddEvent freshId today
          ⟨cur, evs, some ⟨2024, 2, 15⟩, ⟨fd, "Meeting", de, co⟩, dlg, ts⟩).events
        ⟨2024, 2, 15⟩ := by
  have ht : ¬(trimJS "Meeting" = "") := by decide
  have hfmt : formatYMD ⟨2024, 2, 15⟩ = "2024-03-15" := by decide
  have hevents : (handleAddEvent freshId today
      ⟨cur, evs, some ⟨2024, 2, 15⟩, ⟨fd, "Meeting", de, co⟩, dlg, ts⟩).events
      = evs ++ [⟨freshId, "2024-03-15", "Meeting", de, co⟩] := by
    simp [handleAddEvent, ht, hfmt]
  refine ⟨?_, hevents, hfresh, ?_⟩
  · rw [hevents]; simp
  · rw [hevents]
    simp [getEventsForDate, List.mem_filter, hfmt]

/-- Witness for C3 on a one-event store. -/
theorem handleAddEvent_validAdd_spec_witness :
    (handleAddEvent "b" ⟨2024, 2, 20⟩
      ⟨⟨2024, 2, 1⟩, [⟨"a", "2024-03-15", "X", "", "#000000"⟩], some ⟨2024, 2, 15⟩,
        ⟨"", "Meeting", "", "#4f46e5"⟩, true, []⟩).events.length = 1 + 1 :=
  (handleAddEvent_validAdd_spec [⟨"a", "2024-03-15", "X", "", "#000000"⟩] ⟨2024, 2, 1⟩
    "" "" "#4f46e5" true [] "b" ⟨2024, 2, 20⟩ (by decide)).1

/-- C9: Starting from a store with pairwise-distinct event ids,
`handleAddEvent` — the only mutator — preserves distinctness: the failure
branch leaves the store unchanged, and the success branch appends exactly
one event carrying the freshly generated id, assumed (as `crypto.randomUUID`
guarantees) different from every existing id. -/
theorem handleAddEvent_idUnique_spec (s : CalState) (freshId : String) (today : CDate)
    (hnd : (s.events.map Event.id).Nodup)
    (hfresh : freshId ∉ s.events.map Event.id) :
    ((handleAddEvent freshId today s).events.map Event.id).Nodup := by
  by_cases h : trimJS s.newEvent.title = ""
  · simpa [handleAddEvent, h] using hnd
  · simp [handleAddEvent, h, List.nodup_append, hnd, List.disjoint_singleton, hfresh]

/-- Witness for C9 on a one-event store and a fresh id. -/
theorem handleAddEvent_idUnique_spec_witness :
    ((handleAddEvent "c" ⟨2024, 2, 20⟩
      ⟨⟨2024, 2, 1⟩, [⟨"a", "2024-03-15", "X", "", "#000000"⟩], none,
        ⟨"", "T", "", "#4f46e5"⟩, true, []⟩).events.map Event.id).Nodup :=
  handleAddEvent_idUnique_spec
    ⟨⟨2024, 2, 1⟩, [⟨"a", "2024-03-15", "X", "", "#000000"⟩], none,
      ⟨"", "T", "", "#4f46e5"⟩, true, []⟩
    "c" ⟨2024, 2, 20⟩ (by decide) (by decide)

/-- C10 (implicit): on a successful add, the stored date is the date of the
selected day cell (or, with no selection, the host clock's current date) —
the `date` field typed into the form is discarded: changing it does not
change the resulting store at all. -/
theorem handleAddEvent_storedDate_spec (s : CalState) (freshId : String) (today : CDate)
    (typed : String) (h : ¬(trimJS s.newEvent.title = "")) :
    ((handleAddEvent freshId today s).events.getLast? =
      some ⟨freshId,
        (match s.selectedDate with
          | some sd => formatYMD sd
          | none => formatYMD today),
        s.newEvent.title, s.newEvent.description, s.newEvent.color⟩) ∧
    (handleAddEvent freshId today
        { s with newEvent := { s.newEvent with date := typed } }).events
      = (handleAddEvent freshId today s).events := by
  constructor
  · simp [handleAddEvent, h, List.getLast?_concat]
  · simp [handleAddEvent, h]

/-- Witness for C10: the form's typed date `"1999-01-01"` is ignored in
favour of the selected day 2024-03-15. -/
theorem handleAddEvent_storedDate_spec_witness :
    (handleAddEvent "u" ⟨2024, 4, 2⟩
      ⟨⟨2024, 2, 1⟩, [], some ⟨2024, 2, 15⟩, ⟨"1999-01-01", "T", "", "#4f46e5"⟩,
        true, []⟩).events.getLast? =
      some ⟨"u", "2024-03-15", "T", "", "#4f46e5"⟩ := by
  have h1 := (handleAddEvent_storedDate_spec
    ⟨⟨2024, 2, 1⟩, [], some ⟨2024, 2, 15⟩, ⟨"1999-01-01", "T", "", "#4f46e5"⟩, true, []⟩
    "u" ⟨2024, 4, 2⟩ "typed" (by decide)).1
  simpa [show formatYMD ⟨2024, 2, 15⟩ = "2024-03-15" from by decide] using h1

/-- C4: the spec claims `setMonth(index)` / `setYear(year)` clamp an invalid
day of month so the month / year component afterwards equals the selection.
The code instead inherits JavaScript `Date` normalisation, which rolls the
excess days over into the *following* month: selecting February while
viewing 2024-01-31 yields 2024-03-02 (month index 2, not the selected 1),
and selecting year 2023 while viewing 2024-02-29 yields 2023-03-01 (day 1,
not clamped to 28).  This theorem evaluates both handlers at those failing
inputs. -/
theorem monthYearChange_rollover_bug :
    monthNames.findIdx (fun m => m == "February") = 1 ∧
    handleMonthChange "February" ⟨2024, 0, 31⟩ = ⟨2024, 2, 2⟩ ∧
    (handleMonthChange "February" ⟨2024, 0, 31⟩).month ≠ 1 ∧
    handleYearChange "2023" ⟨2024, 1, 29⟩ = ⟨2023, 2, 1⟩ ∧
    (handleYearChange "2023" ⟨2024, 1, 29⟩).day ≠ 28 ∧
    (handleYearChange "2023" ⟨2024, 1, 29⟩).month ≠ 1 := by
  decide

/-- C8: `loadEvents (saveEvents E)` — the JSON serialise-then-parse round
trip through the persisted `"calendar-events"` key — reproduces `E` exactly
for every sequence of well-formed events, and with no persisted data
`loadEvents` returns the empty sequence. -/
theorem load_save_roundTrip (E : List Event)
    (h : ∀ e ∈ E, wellFormedEvent e = true) :
    loadEvents (saveEvents E) = E ∧ loadEvents none = [] :=
  ⟨loadEvents_saveEvents E h, rfl⟩

/-- Witness for C8 on a concrete two-event store. -/
theorem load_save_roundTrip_witness :
    loadEvents (saveEvents
      [⟨"id-1", "2024-03-15", "Meeting", "notes", "#4f46e5"⟩,
       ⟨"id-2", "2024-03-16", "Trip", "", "#000000"⟩]) =
      [⟨"id-1", "2024-03-15", "Meeting", "notes", "#4f46e5"⟩,
       ⟨"id-2", "2024-03-16", "Trip", "", "#000000"⟩] :=
  (load_save_roundTrip _ (by decide)).1
